import Mathlib

/-!
# Verification of the osu! Song Browser core against its specification

This file gives a shallow embedding, in Lean 4, of the core logic of the
`osu_song_browser` repository (files `src/osu_mp3_browser.py`,
`src/osu_mp3_browser/ui.py`, `src/osu_mp3_browser/playlist.py`) and proves or
refutes the specification claims about it.

Conventions used throughout:
* Python strings are `String`; Python `None`-able values are `Option`s.
* Python wall-clock times, durations and positions are rationals (`ℚ`);
  Python truthiness of a number is "`≠ 0`", of an optional is `isSome`,
  of a dict is non-emptiness.
* Python exceptions that a function deliberately raises are `Except`.
* Background-thread interleavings are modelled by explicit small-step
  machines over explicit action lists.
-/

namespace OsuBrowser

/-! ## `strip_leading_numbers` (src/osu_mp3_browser.py lines 34-38)

Python:
```
def strip_leading_numbers(s: str) -> str:
    if not s:
        return s
    return re.sub(r'^\s*\d+[\s._-]*', '', s)
```
The regex removes, from the start of the string only: optional whitespace,
then one or more decimal digits, then any run of whitespace/`.`/`_`/`-`.
If there is no digit after the optional leading whitespace the regex does not
match and the string is returned unchanged.  Character classes are modelled on
their ASCII parts (`\s` = space, tab, newline, carriage return, vertical tab,
form feed; `\d` = `0`-`9`), which covers every string in the claims. -/

/-- ASCII part of the regex class `\s`. -/
def isSpaceRe (c : Char) : Bool :=
  c = ' ' || c = '\t' || c = '\n' || c = '\r' || c = '\x0b' || c = '\x0c'

/-- The regex class `[\s._-]`. -/
def isSepRe (c : Char) : Bool :=
  isSpaceRe c || c = '.' || c = '_' || c = '-'

/-- Core of `re.sub(r'^\s*\d+[\s._-]*', '', s)` on the character list:
if the anchored pattern matches, the matched prefix is removed; otherwise the
list is returned unchanged. -/
def stripCore (l : List Char) : List Char :=
  let rest := l.dropWhile isSpaceRe
  match rest with
  | [] => l
  | c :: _ => if c.isDigit then (rest.dropWhile Char.isDigit).dropWhile isSepRe else l

/-- `strip_leading_numbers` from `src/osu_mp3_browser.py`. -/
def strip_leading_numbers (s : String) : String :=
  if s = "" then s else ⟨stripCore s.data⟩

/-- `True` iff the anchored pattern `^\s*\d+` matches `s`, i.e. iff
`strip_leading_numbers` would remove a non-empty prefix. -/
def hasLeadingNumericId (s : String) : Bool :=
  match s.data.dropWhile isSpaceRe with
  | [] => false
  | c :: _ => c.isDigit

end OsuBrowser

namespace OsuBrowser

/-! ## Playlists (src/osu_mp3_browser/playlist.py)

`PlaylistStore._playlists` is a Python dict mapping a playlist name to a
`Playlist` whose only data is an ordered list of track-path strings.  The dict
is modelled as an association list in insertion order with unique keys; the
first matching key is the dict entry.  `save()` only serialises the in-memory
state (best-effort, errors swallowed), so the store content itself is the
observable state. -/

/-- Python's `str.strip()` with no argument (whitespace from both ends),
modelled on its ASCII part. -/
def pyStrip (s : String) : String :=
  ⟨((s.data.dropWhile isSpaceRe).reverse.dropWhile isSpaceRe).reverse⟩

/-- Dict lookup `self._playlists.get(name)` (tracks of the named playlist). -/
def lookupPl : List (String × List String) → String → Option (List String)
  | [], _ => none
  | (k, v) :: rest, n => if k = n then some v else lookupPl rest n

/-- In-place mutation of the named playlist's `tracks` (first key match,
matching Python dict/object aliasing semantics). -/
def updatePl : List (String × List String) → String → (List String → List String) →
    List (String × List String)
  | [], _, _ => []
  | (k, v) :: rest, n, f => if k = n then (k, f v) :: rest else (k, v) :: updatePl rest n f

/-- `Playlist.add` (playlist.py lines 25-28): append the path unless it is
already present. -/
def playlistAdd (tracks : List String) (p : String) : List String :=
  if p ∈ tracks then tracks else tracks ++ [p]

/-- `PlaylistStore.create` (playlist.py lines 79-88).  Returns the updated
store together with the key under which the (new or existing) playlist is
stored; raises `ValueError` when the stripped name is empty. -/
def storeCreate (st : List (String × List String)) (name : String) :
    Except String (List (String × List String) × String) :=
  let name' := pyStrip name
  if name' = "" then .error "Playlist name cannot be empty"
  else
    match lookupPl st name' with
    | some _ => .ok (st, name')
    | none => .ok (st ++ [(name', [])], name')

/-- `PlaylistStore.add_track` (playlist.py lines 95-98):
`pl = self.create(name) if name not in self._playlists else self._playlists[name]`,
then `pl.add(path)` and `self.save()`. -/
def storeAddTrack (st : List (String × List String)) (name p : String) :
    Except String (List (String × List String)) :=
  if (lookupPl st name).isSome then
    .ok (updatePl st name (fun tr => playlistAdd tr p))
  else
    match storeCreate st name with
    | .error e => .error e
    | .ok (st', key) => .ok (updatePl st' key (fun tr => playlistAdd tr p))

end OsuBrowser

namespace OsuBrowser

/-! ## Manual playback timing (src/osu_mp3_browser/ui.py)

`OsuMP3Browser` keeps manual wall-clock timing state for the playing track:
`_playing_path`, `_start_time` (the timing anchor), `_pause_time`,
`_paused_offset`, `paused`.  The audio backend (module `audio`) is modelled by
its capability flags: whether `unpause()`, `seek_set_pos()` and
`seek_play_start()` succeed.  Wall-clock instants are passed in explicitly
(each `time.time()` call site becomes a `now` argument). -/

/-- Capabilities / results of the external audio backend. -/
structure Backend where
  initOk : Bool
  unpauseOk : Bool
  setPosOk : Bool
  playStartOk : Bool
  deriving DecidableEq, Repr

/-- The manual-timing fields of the UI object. -/
structure TimingState where
  playingPath : Option String
  startTime : Option ℚ
  pauseTime : Option ℚ
  pausedOffset : ℚ
  paused : Bool
  deriving DecidableEq, Repr

/-- A backend call issued while seeking. -/
inductive SeekCall where
  | setPos (q : ℚ)
  | playStart (q : ℚ)
  | restart
  deriving DecidableEq, Repr

/-- The fallback chain of `seek_to` (ui.py lines 2315-2320): try
`audio.seek_set_pos`, then `audio.seek_play_start`, then
`audio.restart_playback`; returns the list of backend calls issued. -/
def seekCalls (b : Backend) (pos : ℚ) : List SeekCall :=
  if b.setPosOk then [.setPos pos]
  else if b.playStartOk then [.setPos pos, .playStart pos]
  else [.setPos pos, .playStart pos, .restart]

/-- The clamp in `seek_to` (ui.py lines 2310-2313):
`if total and pos_sec > total: pos_sec = total`.  `total` is falsy when the
duration is unknown (`none`) or zero. -/
def clampPos (total : Option ℚ) (pos : ℚ) : ℚ :=
  match total with
  | none => pos
  | some t => if t ≠ 0 ∧ pos > t then t else pos

/-- `OsuMP3Browser.seek_to` (ui.py lines 2306-2333).  `total` is the value of
`self._metadata.get(str(self._playing_path), {}).get('duration') or
ensure_duration(...)` (falsy collapsed to `none`); `now` is the `time.time()`
read at line 2323.  Returns the backend calls issued and the new timing
state. -/
def seekTo (b : Backend) (total : Option ℚ) (now pos : ℚ) (s : TimingState) :
    List SeekCall × TimingState :=
  match s.playingPath with
  | none => ([], s)
  | some _ =>
    let pos' := clampPos total pos
    (seekCalls b pos',
     { s with startTime := some (now - pos'), pauseTime := none,
              pausedOffset := 0, paused := false })

/-- `OsuMP3Browser.toggle_pause` (ui.py lines 1648-1694).  `now` is the
`time.time()` read of this invocation (used both for the pause stamp at line
1662 and for the pause-duration computation at line 1690); `total` is the
duration lookup made by the fallback `seek_to` call.  A numeric field is
truthy iff non-zero. -/
def togglePause (b : Backend) (total : Option ℚ) (now : ℚ) (s : TimingState) :
    TimingState :=
  if !b.initOk then s
  else match s.playingPath with
  | none => s
  | some path =>
    if !s.paused then
      { s with paused := true, pauseTime := some now }
    else
      -- resume branch
      let s1 :=
        if b.unpauseOk then s
        else
          -- compute paused position from the manual timer and restart+seek
          let pos :=
            match s.startTime, s.pauseTime with
            | some t0, some tp =>
              if t0 ≠ 0 ∧ tp ≠ 0 then (tp - t0) + s.pausedOffset else 0
            | _, _ => 0
          (seekTo b total now pos { s with playingPath := some path }).2
      let s2 := { s1 with paused := false }
      -- `if self._pause_time and self._start_time:` anchor adjustment
      match s2.pauseTime, s2.startTime with
      | some tp, some t0 =>
        if tp ≠ 0 ∧ t0 ≠ 0 then
          { s2 with startTime := some (t0 + (now - tp)), pauseTime := none }
        else { s2 with pauseTime := none }
      | _, _ => { s2 with pauseTime := none }

/-- The position computation of `update_progress` (ui.py lines 2228-2245):
manual timing preferred, backend `get_pos` (`fallback`) only when no anchor
exists. -/
def elapsed (fallback now : ℚ) (s : TimingState) : ℚ :=
  match s.startTime with
  | none => fallback
  | some t0 =>
    match s.paused, s.pauseTime with
    | true, some tp =>
      if tp ≠ 0 then (tp - t0) + s.pausedOffset else (now - t0) + s.pausedOffset
    | _, _ => (now - t0) + s.pausedOffset

end OsuBrowser

namespace OsuBrowser

/-! ## The playlist sequencer run (ui.py `_play_playlist_tracks`, lines 767-862)

The background `_runner` thread is modelled as a small-step machine.  One
machine step corresponds to reaching the next decision point of the Python
code (a loop-condition or flag check); environment actions (the UI thread
setting `_playlist_cancelled`, `_playlist_skip_requested` or `paused`) may be
interleaved between steps.  Emitting a track means scheduling
`_play_path(Path(p), from_playlist=True)` on the main thread (lines 815-822).

`make_order` is parametrised as the closure `mk : Bool → List α`
(`first_cycle ↦ order`), exactly as the runner calls it; for `Sequential`
mode `mk` is `makeOrderSeq tracks start_index` below.  Within one run the
runner never resets its own cancellation flag (the reset at line 771 happens
before the run's loop starts and belongs to run creation). -/

/-- The `Sequential`-mode body of `make_order` (ui.py lines 773-803, branch
`self.play_mode != 'shuffle'`): on the first cycle with a valid start index
the list is rotated to begin at that index; otherwise the original order. -/
def makeOrderSeq (tracks : List α) (startIndex : Option Nat) (firstCycle : Bool) :
    List α :=
  if tracks.isEmpty then []
  else
    match startIndex with
    | some i =>
      if firstCycle ∧ i < tracks.length then tracks.drop i ++ tracks.take i
      else tracks
    | none => tracks

/-- Control points of the `_runner` loop. -/
inductive RunPC (α : Type u) where
  | checkOuter (order : List α)  -- at `while not self._playlist_cancelled`
  | forLoop (rest : List α)      -- at the `for p in order` header
  | waitLoop (rest : List α)     -- inside the `while True` wait loop
  | done                         -- runner exited
  deriving DecidableEq, Repr

/-- State of one sequencer run: program counter plus the three shared flags
(`_playlist_cancelled`, `_playlist_skip_requested`, `self.paused`). -/
structure Runner (α : Type u) where
  pc : RunPC α
  cancelled : Bool
  skipReq : Bool
  pausedUI : Bool
  deriving DecidableEq, Repr

/-- The runner just after line 806 (`order = make_order(first_cycle=True)`),
about to test the outer `while` condition. -/
def initRunner (mk : Bool → List α) : Runner α :=
  { pc := .checkOuter (mk true), cancelled := false, skipReq := false,
    pausedUI := false }

/-- One step of the runner thread, given the current `audio.is_busy()` answer.
Returns the new state and the track started during the step, if any. -/
def runStep (mk : Bool → List α) (wrap busy : Bool) (r : Runner α) :
    Runner α × Option α :=
  match r.pc with
  | .done => (r, none)
  | .checkOuter ord =>
    if r.cancelled then ({ r with pc := .done }, none)
    else ({ r with pc := .forLoop ord }, none)
  | .forLoop [] =>
    -- for-loop exhausted: `if not wrap: break` else rebuild order and retest
    if wrap then ({ r with pc := .checkOuter (mk false) }, none)
    else ({ r with pc := .done }, none)
  | .forLoop (p :: rest) =>
    -- `if self._playlist_cancelled: break`
    if r.cancelled then ({ r with pc := .done }, none)
    else ({ r with pc := .waitLoop rest }, some p)
  | .waitLoop rest =>
    -- wait-loop body, checks in source order (lines 827-843)
    if r.skipReq then ({ r with skipReq := false, pc := .forLoop rest }, none)
    else if r.cancelled then ({ r with pc := .forLoop rest }, none)
    else if r.pausedUI then (r, none)
    else if !busy then ({ r with pc := .forLoop rest }, none)
    else (r, none)

/-- Actions on a run: a runner step (with the backend's busy answer), or an
environment write to one of the shared flags.  `cancel` covers both
`stop`-independent cancellation sites: a new run superseding this one and a
manual `_play_path` (ui.py lines 1557-1559).  `reset` is the
`self._playlist_cancelled = False` write at ui.py line 771, executed by a
*superseding* run's `_runner` thread when its loop starts — on the same
shared flag the old runner is still polling. -/
inductive RAct where
  | tick (busy : Bool)
  | cancel
  | skip
  | setPause (b : Bool)
  | reset
  deriving DecidableEq, Repr

/-- Apply one action. -/
def runAct (mk : Bool → List α) (wrap : Bool) (r : Runner α) : RAct → Runner α × Option α
  | .tick busy => runStep mk wrap busy r
  | .cancel => ({ r with cancelled := true }, none)
  | .skip => ({ r with skipReq := true }, none)
  | .setPause b => ({ r with pausedUI := b }, none)
  | .reset => ({ r with cancelled := false }, none)

/-- Run a list of actions, collecting the tracks started (in order). -/
def runTrace (mk : Bool → List α) (wrap : Bool) (r : Runner α) :
    List RAct → Runner α × List α
  | [] => (r, [])
  | a :: rest =>
    let (r', e) := runAct mk wrap r a
    let (r'', es) := runTrace mk wrap r' rest
    (r'', (e.toList) ++ es)

/-- `n` consecutive runner steps with the backend reporting not busy. -/
def ticks (n : Nat) : List RAct := List.replicate n (.tick false)

/-- The cancellation effect of `OsuMP3Browser._play_path` (ui.py lines
1555-1559) on `_playlist_cancelled`: a manual play (`from_playlist=False`)
sets the flag; a sequencer-initiated play leaves it unchanged. -/
def playPathCancelled (fromPlaylist : Bool) (prev : Bool) : Bool :=
  if fromPlaylist then prev else true

end OsuBrowser

namespace OsuBrowser

/-! ## Metadata records, library index and the scanner

`self._metadata` maps a path string to a metadata dict.  The dicts produced by
the program carry at most the keys `title`, `artist`, `album`, `duration`,
`__mtime`, `__size`; a key is present exactly when the value is truthy (see
`get_mp3_metadata` in src/osu_mp3_browser.py lines 369-449, which only sets
truthy values, and the stamping at ui.py lines 1456-1459).  A present key is a
`some` field.  An entry is stored only when the dict is non-empty (`if meta:`
guards at ui.py lines 1319, 1351, 1236), so `some r` means "present". -/

/-- A metadata dict. -/
structure MetaRec where
  title : Option String := none
  artist : Option String := none
  album : Option String := none
  duration : Option ℚ := none
  mtime : Option ℚ := none   -- key `__mtime`
  size : Option ℚ := none    -- key `__size`
  deriving DecidableEq, Repr

/-- Python truthiness of the dict (`if meta:`): some key is present. -/
def MetaRec.isNonempty (m : MetaRec) : Bool :=
  m.title.isSome || m.artist.isSome || m.album.isSome || m.duration.isSome ||
    m.mtime.isSome || m.size.isSome

/-- `{**old, **new}`: keys of `new` win. -/
def MetaRec.merge (old new : MetaRec) : MetaRec where
  title := new.title <|> old.title
  artist := new.artist <|> old.artist
  album := new.album <|> old.album
  duration := new.duration <|> old.duration
  mtime := new.mtime <|> old.mtime
  size := new.size <|> old.size

/-- `self._metadata[key] = {**self._metadata.get(key, {}), **meta}`
(ui.py lines 1320, 1352). -/
def updateMeta (metadata : String → Option MetaRec) (key : String) (meta : MetaRec) :
    String → Option MetaRec :=
  fun k => if k = key then some (MetaRec.merge ((metadata key).getD {}) meta) else metadata k

/-- Modelled from the spec: `ensure_duration(path, metadata)` lives in the
module `osu_mp3_browser.metadata`, which is not among the provided sources.
Per spec §4.2, when the duration is not already known it "performs a one-time
lazy computation (loading the stream) and the result is cached".  The result
of the stream computation is the oracle argument `res` (`0` encodes a falsy
result, as in Python); a truthy result is cached into the metadata mapping for
`key`. -/
def ensureDurationCache (metadata : String → Option MetaRec) (key : String) (res : ℚ) :
    String → Option MetaRec :=
  if res ≠ 0 then updateMeta metadata key { duration := some res } else metadata

/-- Lowercased substring test, `q in s` after Python `.lower()`. -/
def strContains (q s : String) : Bool :=
  decide (q.toList <:+: s.toList)

/-- Mutable library state shared by the scanner and the UI:
`all_mp3_paths` (full index), `mp3_paths` (filtered view), `_seen_paths`,
`_metadata`, and `_excluded_short` (the main-thread excluded tally). -/
structure IndexState where
  all : List (String × String)
  mp3 : List (String × String)
  seen : List String
  metadata : String → Option MetaRec
  excluded : Nat

/-- The empty startup state (ui.py lines 76-79, 309-311). -/
def emptyIndex : IndexState :=
  { all := [], mp3 := [], seen := [], metadata := fun _ => none, excluded := 0 }

/-- The search-match test of `_add_discovered_file` (ui.py lines 1361-1376)
and `refresh_list` (ui.py lines 2268-2280): the lowercased stripped query must
be a substring of the folder title, tag title or artist (the latter two only
when truthy). -/
def searchMatches (q : String) (folderTitle : String) (meta : MetaRec) : Bool :=
  if q = "" then true
  else
    let searchable := [folderTitle.toLower] ++
      (match meta.title with
       | some t => if t ≠ "" then [t.toLower] else []
       | none => []) ++
      (match meta.artist with
       | some a => if a ≠ "" then [a.toLower] else []
       | none => [])
    searchable.any (fun s => strContains q s)

/-- `OsuMP3Browser._add_discovered_file` (ui.py lines 1311-1395), the
main-thread handler of one discovery event.  `q` is the current (already
stripped and lowercased) search query, `minDur` the current minimum duration,
`ensureRes` the stream-duration oracle for the `ensure_duration` call at line
1332 (`0` = falsy). -/
def addDiscoveredFile (minDur : ℚ) (q : String) (st : IndexState)
    (full folderTitle : String) (meta : MetaRec) (ensureRes : ℚ) : IndexState :=
  if full ∈ st.seen then
    -- already known: only merge metadata (lines 1316-1323)
    if meta.isNonempty then { st with metadata := updateMeta st.metadata full meta }
    else st
  else
    -- re-check duration (lines 1325-1334)
    let dur0 := meta.duration.getD 0
    let (st1, dur) :=
      if dur0 = 0 then
        ({ st with metadata := ensureDurationCache st.metadata full ensureRes }, ensureRes)
      else (st, dur0)
    if dur ≠ 0 ∧ dur < minDur then
      -- excluded (lines 1336-1342, via `_inc_excluded_short`)
      { st1 with excluded := st1.excluded + 1 }
    else
      let st2 := { st1 with seen := full :: st1.seen }
      let st3 :=
        if meta.isNonempty then { st2 with metadata := updateMeta st2.metadata full meta }
        else st2
      let st4 := { st3 with all := st3.all ++ [(full, folderTitle)] }
      if searchMatches q folderTitle meta then
        { st4 with mp3 := st4.mp3 ++ [(full, folderTitle)] }
      else st4

/-- `OsuMP3Browser.refresh_list` (ui.py lines 2261-2284): rebuild the filtered
view from the full index against the stored metadata.  `q` is the stripped
lowercased query. -/
def refreshList (q : String) (st : IndexState) : IndexState :=
  { st with
    mp3 := st.all.filter (fun pt =>
      searchMatches q pt.2 ((st.metadata pt.1).getD {})) }

/-- The search test of `_apply_cache_to_ui` (ui.py lines 1040-1045); unlike
`searchMatches` it always includes the (possibly empty) title and artist
strings. -/
def searchMatchesCache (q : String) (folderTitle : String) (meta : MetaRec) : Bool :=
  if q = "" then true
  else
    [folderTitle.toLower, (meta.title.getD "").toLower,
     (meta.artist.getD "").toLower].any (fun s => strContains q s)

/-- `OsuMP3Browser._apply_cache_to_ui` (ui.py lines 1024-1063): rebuild the
filtered view from the full index, adding every full-index path to
`_seen_paths`. -/
def applyCacheToUi (q : String) (st : IndexState) : IndexState :=
  { st with
    seen := st.all.map Prod.fst ++ st.seen,
    mp3 := st.all.filter (fun pt =>
      searchMatchesCache q pt.2 ((st.metadata pt.1).getD {})) }

/-- One record of the persisted cache file (ui.py `_load_cache` lines
1194-1241): the path, its parent folder's name (used for the fallback title),
the optional stored `folder_title`, and the optional stored metadata dict. -/
structure CacheItem where
  path : String
  parentName : String
  folderTitle : Option String
  meta : Option MetaRec
  deriving Repr

/-- `OsuMP3Browser._load_cache` (ui.py lines 1225-1239): clear the full index
and refill it from the cache items whose path still exists (`existsP`);
`folder_title = rec.get('folder_title') or strip_leading_numbers(p.parent.name)`
(an empty stored title is falsy); metadata restored only when non-empty.  The
filtered view and the seen set are not touched here. -/
def loadCache (existsP : String → Bool) (items : List CacheItem) (st : IndexState) :
    IndexState :=
  let valid := items.filter (fun it => existsP it.path)
  { st with
    all := valid.map (fun it =>
      (it.path,
       match it.folderTitle with
       | some t => if t ≠ "" then t else strip_leading_numbers it.parentName
       | none => strip_leading_numbers it.parentName)),
    metadata := valid.foldl (fun md it =>
      match it.meta with
      | some m =>
        if m.isNonempty then fun k => if k = it.path then some m else md k else md
      | none => md) st.metadata }

end OsuBrowser

namespace OsuBrowser

/-! ## One scan candidate (ui.py `scan_and_populate`, lines 1428-1481)

For each leaf folder the scan thread picks the first supported audio file and
processes it: freshness check against the metadata mirror, extraction on
mismatch, duration resolution, minimum-duration filter, and (when not
excluded) a scheduled `_add_discovered_file` discovery event on the main
thread.  `stat` is the `(st_mtime, st_size)` pair, `none` when `full.stat()`
raised (the code then leaves both stamps unset).  `extractRes` is the oracle
for `get_mp3_metadata(full)`; `ensureScan` / `ensureAdd` are the
stream-duration oracles for the two potential `ensure_duration` calls
(scan thread line 1464 and main thread line 1332). -/

/-- Add the `__mtime`/`__size` stamps to a freshly extracted record
(ui.py lines 1456-1459): each stamp is written only when the stat value is
known. -/
def stampMeta (m : MetaRec) (stat : Option (ℚ × ℚ)) : MetaRec :=
  match stat with
  | some (mt, sz) => { m with mtime := some mt, size := some sz }
  | none => m

/-- The freshness test (ui.py line 1451): `cached and mtime is not None and
size is not None and cached.get('__mtime') == mtime and
cached.get('__size') == size`. -/
def cacheFresh (cached : Option MetaRec) (stat : Option (ℚ × ℚ)) : Bool :=
  match cached, stat with
  | some c, some (mt, sz) => c.mtime = some mt ∧ c.size = some sz
  | _, _ => false

/-- What the scan thread decided for one candidate. -/
structure ScanReport where
  extractorCalls : Nat   -- number of `get_mp3_metadata` calls (0 or 1)
  metaUsed : MetaRec     -- the `meta` dict at the end of the candidate body
  durVal : ℚ             -- the `dur` variable (0 = unknown)
  emitted : Bool         -- whether `_add_discovered_file` was scheduled
  scanExcluded : Nat     -- contribution to the scan-local `excluded_short`
  deriving Repr

/-- The `dur` resolution of the scan body (ui.py lines 1461-1468):
`dur = meta.get('duration') or 0; if not dur: dur = ensure_duration(...)`. -/
def resolvedDur (meta : MetaRec) (ensureRes : ℚ) : ℚ :=
  let dur0 := meta.duration.getD 0
  if dur0 = 0 then ensureRes else dur0

/-- The `meta` dict selected by the scan body for a candidate (ui.py lines
1450-1459): the cached record when fresh, else the freshly extracted and
stamped one. -/
def scanMeta (metadata : String → Option MetaRec) (key : String)
    (stat : Option (ℚ × ℚ)) (extractRes : MetaRec) : MetaRec :=
  if cacheFresh (metadata key) stat then (metadata key).getD {}
  else stampMeta extractRes stat

/-- The scan-thread body for one candidate file `key` (ui.py lines
1440-1481), up to and including the decision whether to emit the discovery
event.  Pure report; the `ensure_duration` cache side effect is applied by
`scanCandidate` below. -/
def scanStep (minDur : ℚ) (metadata : String → Option MetaRec) (key : String)
    (stat : Option (ℚ × ℚ)) (extractRes : MetaRec) (ensureScan : ℚ) : ScanReport :=
  let fresh := cacheFresh (metadata key) stat
  let meta := scanMeta metadata key stat extractRes
  let calls := if fresh then 0 else 1
  let dur := resolvedDur meta ensureScan
  let meta2 :=
    if meta.duration.getD 0 = 0 ∧ dur ≠ 0 then { meta with duration := some dur }
    else meta
  let excluded := dur ≠ 0 ∧ dur < minDur
  { extractorCalls := calls, metaUsed := meta2, durVal := dur,
    emitted := !excluded, scanExcluded := if excluded then 1 else 0 }

/-- Full processing of one scan candidate: the scan-thread body followed, when
the candidate is emitted, by the scheduled `_add_discovered_file` on the main
thread.  `parentName` is `full.parent.name` (the candidate's folder name); the
scan thread never writes `self._metadata` itself (its only write site is the
`ensure_duration` call), so excluded candidates leave the mirror untouched. -/
def scanCandidate (minDur : ℚ) (q : String) (st : IndexState)
    (key parentName : String) (stat : Option (ℚ × ℚ)) (extractRes : MetaRec)
    (ensureScan ensureAdd : ℚ) : IndexState × ScanReport :=
  let rep := scanStep minDur st.metadata key stat extractRes ensureScan
  -- `ensure_duration` is consulted (with its cache side effect) exactly when
  -- the duration of the selected record is falsy (ui.py lines 1461-1464)
  let meta := scanMeta st.metadata key stat extractRes
  let st1 :=
    if meta.duration.getD 0 = 0 then
      { st with metadata := ensureDurationCache st.metadata key ensureScan }
    else st
  let folderTitle := strip_leading_numbers parentName
  if rep.emitted then
    (addDiscoveredFile minDur q st1 key folderTitle rep.metaUsed ensureAdd, rep)
  else (st1, rep)

end OsuBrowser

namespace OsuBrowser

/-- The library-index invariant of spec §3 ("Invariant: no duplicate path; a
path present in the filtered view is always present in the full index"),
together with the coverage of `_seen_paths` that `_add_discovered_file` relies
on for deduplication. -/
def IndexInv (s : IndexState) : Prop :=
  (s.all.map Prod.fst).Nodup ∧
  (∀ p, p ∈ s.mp3.map Prod.fst → p ∈ s.all.map Prod.fst) ∧
  (∀ p, p ∈ s.all.map Prod.fst → p ∈ s.seen)

end OsuBrowser

namespace OsuBrowser

/-! ## Theorems -/

/-- If the anchored pattern does not match `s`, `strip_leading_numbers`
returns `s` unchanged. -/
theorem strip_eq_self_of_no_id (s : String)
    (h : hasLeadingNumericId s = false) : strip_leading_numbers s = s := by
  obtain ⟨l⟩ := s
  unfold strip_leading_numbers
  split
  · rfl
  · unfold stripCore
    unfold hasLeadingNumericId at h
    simp only at h ⊢
    cases hd : l.dropWhile isSpaceRe with
    | nil => rfl
    | cons c cs =>
      rw [hd] at h
      have h' : c.isDigit = false := h
      simp [h']

/-- C3, counterexample: stripping is not idempotent.  On
`"12 34 Foo"` one application removes only `"12 "` (the separator class does
not cross the second digit group), leaving `"34 Foo"`, which strips again to
`"Foo"`. -/
theorem strip_leading_numbers_not_idempotent :
    ¬ (strip_leading_numbers (strip_leading_numbers "12 34 Foo") =
        strip_leading_numbers "12 34 Foo") := by decide

/-- C3 (amended): stripping leading numeric IDs is idempotent for every
string whose stripped form does not itself start with a numeric ID
(`strip("311328 Foo") = "Foo"` and `strip("Foo") = "Foo"` hold as stated);
without that restriction idempotence fails, e.g. at `"12 34 Foo"`. -/
theorem strip_leading_numbers_idem (p : String)
    (h : hasLeadingNumericId (strip_leading_numbers p) = false) :
    strip_leading_numbers (strip_leading_numbers p) = strip_leading_numbers p ∧
    strip_leading_numbers "311328 Foo" = "Foo" ∧
    strip_leading_numbers "Foo" = "Foo" :=
  ⟨strip_eq_self_of_no_id _ h, by decide, by decide⟩

/-- Witness for `strip_leading_numbers_idem` at `p = "311328 Foo"`. -/
theorem strip_leading_numbers_idem_witness :
    hasLeadingNumericId (strip_leading_numbers "311328 Foo") = false ∧
    strip_leading_numbers (strip_leading_numbers "311328 Foo") =
      strip_leading_numbers "311328 Foo" :=
  ⟨by decide, (strip_leading_numbers_idem "311328 Foo" (by decide)).1⟩

end OsuBrowser

namespace OsuBrowser

/-- Updating the entry that `lookupPl` finds with a function that fixes its
value leaves the store unchanged. -/
theorem updatePl_eq_self (st : List (String × List String)) (n : String)
    (f : List String → List String) (tr : List String)
    (hl : lookupPl st n = some tr) (hf : f tr = tr) : updatePl st n f = st := by
  induction st with
  | nil => simp [lookupPl] at hl
  | cons hd rest ih =>
    obtain ⟨k, v⟩ := hd
    by_cases hk : k = n
    · subst hk
      simp [lookupPl] at hl
      subst hl
      simp [updatePl, hf]
    · simp [lookupPl, hk] at hl
      simp [updatePl, hk, ih hl]

/-- C9: `add_track(name, path)` is a no-op on the store when `path` is
already in the named playlist's track list (contents and order unchanged). -/
theorem addTrack_idempotent (st : List (String × List String))
    (name p : String) (tr : List String)
    (hl : lookupPl st name = some tr) (hp : p ∈ tr) :
    storeAddTrack st name p = .ok st := by
  unfold storeAddTrack
  rw [hl]
  simp only [Option.isSome_some, if_pos]
  rw [updatePl_eq_self st name _ tr hl (by simp [playlistAdd, hp])]

/-- Witness for `addTrack_idempotent`: a concrete store with the path
already present. -/
theorem addTrack_idempotent_witness :
    lookupPl [("fav", ["a", "b"])] "fav" = some ["a", "b"] ∧
    storeAddTrack [("fav", ["a", "b"])] "fav" "a" = .ok [("fav", ["a", "b"])] :=
  ⟨by decide, addTrack_idempotent _ "fav" "a" ["a", "b"] (by decide) (by decide)⟩

/-- C10, counterexample: `add_track` can fail for a name absent from the
store — a whitespace-only name makes `create` raise
`ValueError("Playlist name cannot be empty")` instead of creating a playlist. -/
theorem addTrack_fails_on_blank_name :
    lookupPl [] " " = none ∧
    storeAddTrack [] " " "x" = .error "Playlist name cannot be empty" :=
  ⟨rfl, rfl⟩

/-- If a key does not occur in a store, updating it there is the identity. -/
theorem updatePl_of_lookup_none (st : List (String × List String)) (n : String)
    (f : List String → List String) (hl : lookupPl st n = none) :
    updatePl st n f = st := by
  induction st with
  | nil => rfl
  | cons hd rest ih =>
    obtain ⟨k, v⟩ := hd
    by_cases hk : k = n
    · simp [lookupPl, hk] at hl
    · simp [lookupPl, hk] at hl
      simp [updatePl, hk, ih hl]

/-- Updating a key that occurs only as the appended last entry rewrites just
that entry. -/
theorem updatePl_append_fresh (st : List (String × List String)) (k : String)
    (v : List String) (f : List String → List String)
    (hl : lookupPl st k = none) :
    updatePl (st ++ [(k, v)]) k f = st ++ [(k, f v)] := by
  induction st with
  | nil => simp [updatePl]
  | cons hd rest ih =>
    obtain ⟨k', v'⟩ := hd
    by_cases hk : k' = k
    · simp [lookupPl, hk] at hl
    · simp [lookupPl, hk] at hl
      simp [updatePl, hk, ih hl]

/-- C10 (amended): for a name absent from the store whose stripped form is
non-empty and also absent, `add_track(name, path)` succeeds and creates a new
playlist stored under the *stripped* name whose track list is exactly
`[path]` (the store is then saved); a blank name instead raises `ValueError`. -/
theorem addTrack_creates (st : List (String × List String)) (name p : String)
    (h1 : lookupPl st name = none) (h2 : pyStrip name ≠ "")
    (h3 : lookupPl st (pyStrip name) = none) :
    storeAddTrack st name p = .ok (st ++ [(pyStrip name, [p])]) := by
  unfold storeAddTrack storeCreate
  rw [h1]
  simp only [Option.isSome_none, Bool.false_eq_true, if_false, h2, if_neg, h3]
  rw [updatePl_append_fresh st (pyStrip name) [] _ h3]
  simp [playlistAdd]

/-- Witness for `addTrack_creates` at a concrete fresh name. -/
theorem addTrack_creates_witness :
    lookupPl [("fav", ["a"])] "new" = none ∧ pyStrip "new" ≠ "" ∧
    storeAddTrack [("fav", ["a"])] "new" "x" =
      .ok ([("fav", ["a"])] ++ [(pyStrip "new", ["x"])]) :=
  ⟨by decide, by decide,
    addTrack_creates [("fav", ["a"])] "new" "x" (by decide) (by decide) (by decide)⟩

end OsuBrowser

namespace OsuBrowser

/-- C2, counterexample: `seek_to` does not clamp below.  With a playing track
of known duration 10, `seek_to(-5)` issues the backend call `set_pos (-5)`
and sets the timing anchor to `now + 5`, while `seek_to(0)` issues
`set_pos 0` and sets the anchor to `now`; the two behave differently. -/
theorem seekTo_no_lower_clamp :
    seekTo ⟨true, true, true, true⟩ (some 10) 100 (-5)
        ⟨some "p", some 0, none, 0, false⟩ ≠
      seekTo ⟨true, true, true, true⟩ (some 10) 100 0
        ⟨some "p", some 0, none, 0, false⟩ := by
  decide

/-- C2 (amended): for a playing track with known (truthy) duration `d`,
`seek_to` clamps the target only from above: `seek_to(pos)` behaves exactly —
same backend commands, same timing anchor — as `seek_to(min pos d)`; in
particular `seek_to(d + 100)` behaves exactly as `seek_to(d)`.  Negative
targets are passed through unclamped (see the counterexample). -/
theorem seekTo_clamps_above_only (b : Backend) (d now pos : ℚ)
    (s : TimingState) (hd : d ≠ 0) :
    seekTo b (some d) now pos s = seekTo b (some d) now (min pos d) s ∧
    seekTo b (some d) now (d + 100) s = seekTo b (some d) now d s := by
  have hc : ∀ t x : ℚ, clampPos (some t) x = if t ≠ 0 ∧ x > t then t else x :=
    fun _ _ => rfl
  have hclamp : ∀ x : ℚ, clampPos (some d) x = clampPos (some d) (min x d) := by
    intro x
    rw [hc, hc]
    rcases le_or_lt x d with hle | hlt
    · rw [min_eq_left hle]
    · rw [min_eq_right hlt.le]
      rw [if_pos ⟨hd, hlt⟩, if_neg (by simp)]
  have hmain : ∀ x : ℚ, seekTo b (some d) now x s = seekTo b (some d) now (min x d) s := by
    intro x
    unfold seekTo
    cases s.playingPath with
    | none => rfl
    | some q => simp only [hclamp x]
  refine ⟨hmain pos, ?_⟩
  have h2 := hmain (d + 100)
  rw [min_eq_right (by linarith : d ≤ d + 100)] at h2
  exact h2

/-- Witness for `seekTo_clamps_above_only` at concrete values. -/
theorem seekTo_clamps_above_only_witness :
    (10 : ℚ) ≠ 0 ∧
    seekTo ⟨true, true, true, true⟩ (some 10) 100 ((10 : ℚ) + 100)
        ⟨some "p", some 0, none, 0, false⟩ =
      seekTo ⟨true, true, true, true⟩ (some 10) 100 10
        ⟨some "p", some 0, none, 0, false⟩ :=
  ⟨by norm_num,
    (seekTo_clamps_above_only ⟨true, true, true, true⟩ 10 100 0
      ⟨some "p", some 0, none, 0, false⟩ (by norm_num)).2⟩

end OsuBrowser

namespace OsuBrowser

/-- C4: pausing at `t1` then resuming at `t2` keeps the manual elapsed
position continuous across the pause (exactly, hence within any polling
granularity): pausing records the pause timestamp, and resuming moves the
timing anchor forward by exactly the pause duration `t2 - t1`.  This holds
whether the backend supports a true unpause or the restart+seek fallback
runs (provided, as at any real pause point, the paused position does not
exceed the known duration). -/
theorem togglePause_continuous (b : Backend) (p : String) (d t0 t1 t2 f1 f2 : ℚ)
    (hinit : b.initOk = true) (ht0 : 0 < t0) (h01 : t0 ≤ t1) (h12 : t1 ≤ t2)
    (hd : 0 < d) (hin : t1 - t0 ≤ d) :
    elapsed f2 t2
        (togglePause b (some d) t2
          (togglePause b (some d) t1 ⟨some p, some t0, none, 0, false⟩)) =
      elapsed f1 t1 ⟨some p, some t0, none, 0, false⟩ ∧
    (togglePause b (some d) t1 ⟨some p, some t0, none, 0, false⟩).pauseTime =
      some t1 ∧
    (togglePause b (some d) t1 ⟨some p, some t0, none, 0, false⟩).paused = true ∧
    (togglePause b (some d) t2
        (togglePause b (some d) t1 ⟨some p, some t0, none, 0, false⟩)).startTime =
      some (t0 + (t2 - t1)) := by
  have ht1 : t1 ≠ 0 := ne_of_gt (lt_of_lt_of_le ht0 h01)
  have ht0' : t0 ≠ 0 := ne_of_gt ht0
  have hs1 : togglePause b (some d) t1 ⟨some p, some t0, none, 0, false⟩ =
      ⟨some p, some t0, some t1, 0, true⟩ := by
    simp [togglePause, hinit]
  rw [hs1]
  cases hu : b.unpauseOk with
  | true =>
    have hs2 : togglePause b (some d) t2 ⟨some p, some t0, some t1, 0, true⟩ =
        ⟨some p, some (t0 + (t2 - t1)), none, 0, false⟩ := by
      simp [togglePause, hinit, hu, ht0', ht1]
    rw [hs2]
    refine ⟨?_, rfl, rfl, rfl⟩
    simp [elapsed]
    ring
  | false =>
    have hnc : ¬ ((d ≠ 0) ∧ ((t1 - t0 : ℚ) > d)) := by
      push_neg
      intro _
      linarith
    have hs2 : togglePause b (some d) t2 ⟨some p, some t0, some t1, 0, true⟩ =
        ⟨some p, some (t2 - (t1 - t0 + 0)), none, 0, false⟩ := by
      simp [togglePause, hinit, hu, ht0', ht1, seekTo, clampPos, hnc]
    rw [hs2]
    refine ⟨?_, rfl, rfl, ?_⟩
    · simp [elapsed]
    · exact congrArg some (by ring)

/-- Witness for `togglePause_continuous`: a 10-second track paused at `t1=3`
and resumed at `t2=7` with a backend lacking native unpause. -/
theorem togglePause_continuous_witness :
    (⟨true, false, true, true⟩ : Backend).initOk = true ∧ (0 : ℚ) < 1 ∧
    elapsed 0 7
        (togglePause ⟨true, false, true, true⟩ (some 10) 7
          (togglePause ⟨true, false, true, true⟩ (some 10) 3
            ⟨some "p", some 1, none, 0, false⟩)) =
      elapsed 0 3 ⟨some "p", some 1, none, 0, false⟩ :=
  ⟨rfl, by norm_num,
    (togglePause_continuous ⟨true, false, true, true⟩ "p" 10 1 3 7 0 0 rfl
      (by norm_num) (by norm_num) (by norm_num) (by norm_num) (by norm_num)).1⟩

end OsuBrowser

namespace OsuBrowser

/-- A single action applied to a cancelled run starts no track and leaves the
run cancelled: every runner transition taken with `cancelled = true` emits
nothing, and no action in the model resets the flag. -/
theorem runAct_cancelled {α : Type u} (mk : Bool → List α) (wrap : Bool)
    (r : Runner α) (a : RAct) (h : r.cancelled = true) (ha : a ≠ RAct.reset) :
    (runAct mk wrap r a).2 = none ∧ (runAct mk wrap r a).1.cancelled = true := by
  obtain ⟨pc, c, sk, pz⟩ := r
  simp only [Runner.cancelled] at h
  subst h
  cases a with
  | tick busy =>
    cases pc with
    | checkOuter ord => simp [runAct, runStep]
    | forLoop rest =>
      cases rest with
      | nil => cases wrap <;> simp [runAct, runStep]
      | cons p ps => simp [runAct, runStep]
    | waitLoop rest =>
      cases sk <;> cases pz <;> cases busy <;> simp [runAct, runStep]
    | done => simp [runAct, runStep]
  | cancel => simp [runAct]
  | skip => simp [runAct]
  | setPause b => simp [runAct]
  | reset => exact absurd rfl ha

/-- C5, counterexample: cancellation does not stop a run for good, because a
superseding run's thread resets the shared `_playlist_cancelled` flag
(ui.py line 771) while the old runner may still be between two polls of it.
Concretely, an old run waiting on track `5` with the flag set observes the
cancellation (it leaves the wait loop even though the backend is still busy,
which only the line-836 cancellation check does), then the new run's startup
resets the flag, and the old run's next `for`-header check (line 810) sees
`False` and starts a further track — so the run starts track `5` after
having observed its own cancellation. -/
theorem sequencer_cancel_reset_restarts :
    (Runner.cancelled ⟨.waitLoop [5], true, false, false⟩ = true) ∧
    (runAct (makeOrderSeq [5] (some 0)) true
      (⟨.waitLoop [5], true, false, false⟩ : Runner ℕ) (.tick true)).1.pc =
      RunPC.forLoop [5] ∧
    (runTrace (makeOrderSeq [5] (some 0)) true
      (⟨.waitLoop [5], true, false, false⟩ : Runner ℕ)
      [.tick true, .reset, .tick true]).2 = [5] := by
  refine ⟨rfl, ?_, ?_⟩
  · decide
  · decide

/-- C5 (amended): once a sequencer run's cancellation flag is set (and hence
at every later observation of it), the run starts no further track — over
every interleaving of runner steps and environment flag writes in which no
superseding run resets the shared `_playlist_cancelled` flag (the ui.py
line 771 write, the model's `reset` action): the collected trace of started
tracks is empty.  Moreover a manual play (`_play_path` with
`from_playlist=False`) always sets the prior run's cancellation flag.  If a
new run does reset the shared flag before the old runner exits, the old run
can start further tracks after observing its cancellation (see the
counterexample). -/
theorem sequencer_cancelled_no_starts {α : Type u} (mk : Bool → List α)
    (wrap : Bool) (r : Runner α) (acts : List RAct) (c : Bool)
    (h : r.cancelled = true) (hacts : RAct.reset ∉ acts) :
    (runTrace mk wrap r acts).2 = [] ∧ playPathCancelled false c = true := by
  constructor
  · induction acts generalizing r with
    | nil => rfl
    | cons a rest ih =>
      have hhead : a ≠ RAct.reset := fun hr => hacts (hr ▸ List.mem_cons_self a rest)
      have hrest : RAct.reset ∉ rest := fun hr => hacts (List.mem_cons_of_mem a hr)
      obtain ⟨he, hc⟩ := runAct_cancelled mk wrap r a h hhead
      simp only [runTrace]
      rw [he]
      simp only [Option.toList_none, List.nil_append]
      exact ih _ hc hrest
  · rfl

/-- Witness for `sequencer_cancelled_no_starts`: a cancelled run over
`[0, 1, 2]` about to start a track, driven for several reset-free steps. -/
theorem sequencer_cancelled_no_starts_witness :
    (Runner.cancelled ⟨.forLoop [0, 1, 2], true, false, false⟩ = true) ∧
    RAct.reset ∉ ticks 6 ∧
    (runTrace (makeOrderSeq [0, 1, 2] (some 1)) true
        ⟨.forLoop [0, 1, 2], true, false, false⟩ (ticks 6)).2 = [] :=
  ⟨rfl, by decide,
    (sequencer_cancelled_no_starts (makeOrderSeq [0, 1, 2] (some 1)) true
      ⟨.forLoop [0, 1, 2], true, false, false⟩ (ticks 6) false rfl
      (by decide)).1⟩

end OsuBrowser

namespace OsuBrowser

/-- Unfolding lemma: one action followed by the rest of the trace. -/
theorem runTrace_cons {α : Type u} (mk : Bool → List α) (wrap : Bool)
    (r : Runner α) (a : RAct) (l : List RAct) :
    runTrace mk wrap r (a :: l) =
      ((runTrace mk wrap (runAct mk wrap r a).1 l).1,
       (runAct mk wrap r a).2.toList ++ (runTrace mk wrap (runAct mk wrap r a).1 l).2) :=
  rfl

/-- Traces compose over concatenation of action lists. -/
theorem runTrace_append {α : Type u} (mk : Bool → List α) (wrap : Bool)
    (r : Runner α) (l1 l2 : List RAct) :
    runTrace mk wrap r (l1 ++ l2) =
      ((runTrace mk wrap (runTrace mk wrap r l1).1 l2).1,
       (runTrace mk wrap r l1).2 ++ (runTrace mk wrap (runTrace mk wrap r l1).1 l2).2) := by
  induction l1 generalizing r with
  | nil => simp [runTrace]
  | cons a rest ih =>
    rw [List.cons_append, runTrace_cons, ih, runTrace_cons]
    simp [List.append_assoc]

/-- An uncancelled, unskipped, unpaused runner at the `for` header works
through its remaining order in `2·len` not-busy steps, emitting each track
once, and ends back at the `for` header with nothing left. -/
theorem runTrace_forLoop {α : Type u} (mk : Bool → List α) (wrap : Bool)
    (l : List α) :
    runTrace mk wrap ⟨.forLoop l, false, false, false⟩ (ticks (2 * l.length)) =
      (⟨.forLoop [], false, false, false⟩, l) := by
  induction l with
  | nil => rfl
  | cons p rest ih =>
    have hlen : 2 * (p :: rest).length = (2 * rest.length) + 1 + 1 := by
      simp [List.length_cons]
      ring
    rw [hlen]
    have hrep : ticks (2 * rest.length + 1 + 1) =
        .tick false :: .tick false :: ticks (2 * rest.length) := by
      simp [ticks, List.replicate_succ]
    have s1 : runAct mk wrap
        (⟨.forLoop (p :: rest), false, false, false⟩ : Runner α) (.tick false) =
        (⟨.waitLoop rest, false, false, false⟩, some p) := rfl
    have s2 : runAct mk wrap
        (⟨.waitLoop rest, false, false, false⟩ : Runner α) (.tick false) =
        (⟨.forLoop rest, false, false, false⟩, none) := rfl
    rw [hrep]
    simp only [runTrace_cons, s1, s2, ih]
    rfl

/-- One full cycle of the runner: from the outer `while` test with order
`ord`, `2·len + 2` not-busy steps emit exactly `ord` and return to the outer
test with the next cycle's order `mk false`. -/
theorem runTrace_cycle {α : Type u} (mk : Bool → List α) (ord : List α) :
    runTrace mk true ⟨.checkOuter ord, false, false, false⟩
        (ticks (2 * ord.length + 2)) =
      (⟨.checkOuter (mk false), false, false, false⟩, ord) := by
  have h1 : ticks (2 * ord.length + 2) =
      ticks 1 ++ (ticks (2 * ord.length) ++ ticks 1) := by
    simp only [ticks]
    rw [show 2 * ord.length + 2 = 1 + (2 * ord.length + 1) by ring,
      List.replicate_add, List.replicate_add]
  have hA : runTrace mk true (⟨.checkOuter ord, false, false, false⟩ : Runner α)
      (ticks 1) = (⟨.forLoop ord, false, false, false⟩, []) := rfl
  have hC : runTrace mk true (⟨.forLoop [], false, false, false⟩ : Runner α)
      (ticks 1) = (⟨.checkOuter (mk false), false, false, false⟩, []) := rfl
  rw [h1, runTrace_append, hA]
  simp only
  rw [runTrace_append, runTrace_forLoop, hC]
  simp

/-- Every cycle after the first replays `mk false`; `n` such cycles emit `n`
copies of it. -/
theorem runTrace_cycles_from {α : Type u} (mk : Bool → List α) (n : Nat) :
    runTrace mk true ⟨.checkOuter (mk false), false, false, false⟩
        (ticks (n * (2 * (mk false).length + 2))) =
      (⟨.checkOuter (mk false), false, false, false⟩,
       List.flatten (List.replicate n (mk false))) := by
  induction n with
  | zero => simp [ticks, runTrace]
  | succ m ih =>
    have hsplit : ticks ((m + 1) * (2 * (mk false).length + 2)) =
        ticks (2 * (mk false).length + 2) ++
          ticks (m * (2 * (mk false).length + 2)) := by
      simp only [ticks]
      rw [show (m + 1) * (2 * (mk false).length + 2) =
        (2 * (mk false).length + 2) + m * (2 * (mk false).length + 2) by ring,
        List.replicate_add]
    rw [hsplit, runTrace_append, runTrace_cycle, ih]
    simp [List.replicate_succ]

/-- C1 (amended): a `Sequential` run over `[a, b, c]` started at index 1 with
wrap plays `b, c, a` on its first cycle and then `a, b, c` — the original
list order — on every subsequent cycle, until cancelled: after `n + 1` full
cycles the started tracks are `[b, c, a]` followed by `n` copies of
`[a, b, c]` (not `[b, c, a]` repeated). -/
theorem sequencer_sequential_order {α : Type} (a b c : α) (n : Nat) :
    (runTrace (makeOrderSeq [a, b, c] (some 1)) true
        (initRunner (makeOrderSeq [a, b, c] (some 1))) (ticks ((n + 1) * 8))).2 =
      [b, c, a] ++ List.flatten (List.replicate n [a, b, c]) := by
  have hmkT : makeOrderSeq [a, b, c] (some 1) true = [b, c, a] := by
    simp [makeOrderSeq]
  have hmkF : makeOrderSeq [a, b, c] (some 1) false = [a, b, c] := by
    simp [makeOrderSeq]
  have hsplit : ticks ((n + 1) * 8) = ticks 8 ++ ticks (n * 8) := by
    simp only [ticks]
    rw [show (n + 1) * 8 = 8 + n * 8 by ring, List.replicate_add]
  rw [hsplit, runTrace_append]
  have hfirst : runTrace (makeOrderSeq [a, b, c] (some 1)) true
      (initRunner (makeOrderSeq [a, b, c] (some 1))) (ticks 8) =
      (⟨.checkOuter (makeOrderSeq [a, b, c] (some 1) false), false, false, false⟩,
       [b, c, a]) := by
    have h := runTrace_cycle (makeOrderSeq [a, b, c] (some 1)) [b, c, a]
    have h8 : 2 * ([b, c, a] : List α).length + 2 = 8 := by simp
    rw [h8] at h
    unfold initRunner
    rw [hmkT]
    exact h
  have hrest : runTrace (makeOrderSeq [a, b, c] (some 1)) true
      (⟨.checkOuter (makeOrderSeq [a, b, c] (some 1) false), false, false,
        false⟩ : Runner α) (ticks (n * 8)) =
      (⟨.checkOuter (makeOrderSeq [a, b, c] (some 1) false), false, false, false⟩,
       List.flatten (List.replicate n [a, b, c])) := by
    have h := runTrace_cycles_from (makeOrderSeq [a, b, c] (some 1)) n
    rw [hmkF] at h
    have h8 : 2 * ([a, b, c] : List α).length + 2 = 8 := by simp
    rw [h8] at h
    exact h
  rw [hfirst]
  simp only
  rw [hrest]

/-- C1, counterexample: over the track list `[0, 1, 2]` (read `A, B, C`)
started at index 1 with wrap, the fourth track started by the uncancelled run
is `0` (`A`, the head of the original order replayed on the second cycle),
not `1` (`B`) as the claimed order `B, C, A, B, C, A, ...` predicts. -/
theorem sequencer_sequential_order_not_cyclic :
    (runTrace (makeOrderSeq [0, 1, 2] (some 1)) true
        (initRunner (makeOrderSeq [0, 1, 2] (some 1))) (ticks 10)).2.get? 3 =
      some 0 ∧
    ¬ ((runTrace (makeOrderSeq [0, 1, 2] (some 1)) true
        (initRunner (makeOrderSeq [0, 1, 2] (some 1))) (ticks 10)).2.get? 3 =
      some 1) := by
  constructor
  · decide
  · decide

end OsuBrowser

namespace OsuBrowser

/-- `_add_discovered_file` does not touch the excluded tally when the event's
metadata carries a passing (truthy, not below the minimum) duration. -/
theorem addDiscoveredFile_excluded_of_pass (minDur : ℚ) (q : String)
    (st : IndexState) (full ft : String) (meta : MetaRec) (ensureAdd : ℚ)
    (h : meta.duration.getD 0 ≠ 0) (h2 : ¬ meta.duration.getD 0 < minDur) :
    (addDiscoveredFile minDur q st full ft meta ensureAdd).excluded =
      st.excluded := by
  unfold addDiscoveredFile
  by_cases hseen : full ∈ st.seen
  · simp only [hseen, if_pos]
    split <;> rfl
  · simp only [if_neg hseen, if_neg h]
    rw [if_neg (fun hc => h2 hc.2)]
    split <;> split <;> rfl

/-- The report returned by `scanCandidate` is the scan-thread report,
independent of the main-thread continuation. -/
theorem scanCandidate_report (minDur : ℚ) (q key parentName : String)
    (st : IndexState) (stat : Option (ℚ × ℚ)) (er : MetaRec) (es ea : ℚ) :
    (scanCandidate minDur q st key parentName stat er es ea).2 =
      scanStep minDur st.metadata key stat er es := by
  unfold scanCandidate
  dsimp only
  split <;> rfl

/-- The duration carried by the record a scan emits equals the resolved
duration, whenever the latter is truthy. -/
theorem scanStep_metaUsed_dur (minDur : ℚ) (md : String → Option MetaRec)
    (key : String) (stat : Option (ℚ × ℚ)) (er : MetaRec) (es d : ℚ)
    (hd : resolvedDur (scanMeta md key stat er) es = d) (h0 : d ≠ 0) :
    ((scanStep minDur md key stat er es).metaUsed).duration.getD 0 = d := by
  by_cases hz : (scanMeta md key stat er).duration.getD 0 = 0
  · unfold scanStep
    simp [hz, hd, h0]
  · have hda : (scanMeta md key stat er).duration.getD 0 = d := by
      unfold resolvedDur at hd
      simpa [hz] using hd
    unfold scanStep
    dsimp only
    rw [if_neg (fun hc => hz hc.1)]
    exact hda

/-- C6: for a scan candidate whose resolved duration `d` is known (truthy):
if `d < min` the candidate is not emitted as a discovery event and the
excluded tally grows by exactly one (on the scan side; the main-thread tally
is untouched); if `d ≥ min` the candidate is always emitted and no excluded
count is charged anywhere. -/
theorem scan_min_duration_filter (minDur : ℚ) (q key parentName : String)
    (st : IndexState) (stat : Option (ℚ × ℚ)) (extractRes : MetaRec)
    (ensureScan ensureAdd : ℚ) (d : ℚ)
    (hd : resolvedDur (scanMeta st.metadata key stat extractRes) ensureScan = d)
    (h0 : d ≠ 0) :
    (d < minDur →
      (scanCandidate minDur q st key parentName stat extractRes ensureScan
        ensureAdd).2.emitted = false ∧
      (scanCandidate minDur q st key parentName stat extractRes ensureScan
        ensureAdd).2.scanExcluded = 1 ∧
      (scanCandidate minDur q st key parentName stat extractRes ensureScan
        ensureAdd).1.excluded = st.excluded) ∧
    (minDur ≤ d →
      (scanCandidate minDur q st key parentName stat extractRes ensureScan
        ensureAdd).2.emitted = true ∧
      (scanCandidate minDur q st key parentName stat extractRes ensureScan
        ensureAdd).2.scanExcluded = 0 ∧
      (scanCandidate minDur q st key parentName stat extractRes ensureScan
        ensureAdd).1.excluded = st.excluded) := by
  rw [scanCandidate_report]
  constructor
  · intro hlt
    refine ⟨?_, ?_, ?_⟩
    · unfold scanStep
      simp [hd, h0, hlt]
    · unfold scanStep
      simp [hd, h0, hlt]
    · unfold scanCandidate
      dsimp only
      have hem : (scanStep minDur st.metadata key stat extractRes
          ensureScan).emitted = false := by
        unfold scanStep
        simp [hd, h0, hlt]
      rw [if_neg (by rw [hem]; exact Bool.false_ne_true)]
      split <;> rfl
  · intro hge
    have hnlt : ¬ d < minDur := not_lt.mpr hge
    have hem : (scanStep minDur st.metadata key stat extractRes
        ensureScan).emitted = true := by
      unfold scanStep
      simp [hd, hnlt]
    refine ⟨hem, ?_, ?_⟩
    · unfold scanStep
      simp [hd, hnlt]
    · unfold scanCandidate
      dsimp only
      rw [if_pos hem]
      rw [addDiscoveredFile_excluded_of_pass _ _ _ _ _ _ _
        (by rw [scanStep_metaUsed_dur minDur _ _ _ _ _ d hd h0]; exact h0)
        (by rw [scanStep_metaUsed_dur minDur _ _ _ _ _ d hd h0]; exact hnlt)]
      split <;> rfl

/-- Witness for `scan_min_duration_filter`: a candidate of duration 3 against
minimum 5 on an empty state is excluded once and not emitted. -/
theorem scan_min_duration_filter_witness :
    resolvedDur (scanMeta emptyIndex.metadata "k" (some (1, 2))
      { duration := some 3 }) 0 = 3 ∧
    (scanCandidate 5 "" emptyIndex "k" "f" (some (1, 2)) { duration := some 3 }
      0 0).2.emitted = false ∧
    (scanCandidate 5 "" emptyIndex "k" "f" (some (1, 2)) { duration := some 3 }
      0 0).2.scanExcluded = 1 := by
  refine ⟨by decide, ?_, ?_⟩
  · exact ((scan_min_duration_filter 5 "" "k" "f" emptyIndex (some (1, 2))
      { duration := some 3 } 0 0 3 (by decide) (by decide)).1 (by norm_num)).1
  · exact ((scan_min_duration_filter 5 "" "k" "f" emptyIndex (some (1, 2))
      { duration := some 3 } 0 0 3 (by decide) (by decide)).1 (by norm_num)).2.1

end OsuBrowser

namespace OsuBrowser

/-- Projection: the scan report's `durVal` is the resolved duration. -/
theorem scanStep_durVal (minDur : ℚ) (md : String → Option MetaRec)
    (key : String) (stat : Option (ℚ × ℚ)) (er : MetaRec) (es : ℚ) :
    (scanStep minDur md key stat er es).durVal =
      resolvedDur (scanMeta md key stat er) es := rfl

/-- The record a scan uses is the selected record with (at most) its
duration backfilled. -/
theorem scanStep_metaUsed_shape (minDur : ℚ) (md : String → Option MetaRec)
    (key : String) (stat : Option (ℚ × ℚ)) (er : MetaRec) (es : ℚ) :
    ∃ o, (scanStep minDur md key stat er es).metaUsed =
      { scanMeta md key stat er with duration := o } := by
  unfold scanStep
  dsimp only
  split
  · exact ⟨some (resolvedDur (scanMeta md key stat er) es), rfl⟩
  · exact ⟨(scanMeta md key stat er).duration, rfl⟩

/-- On a freshness hit the cached record is selected. -/
theorem scanMeta_of_fresh (md : String → Option MetaRec) (key : String)
    (stat : Option (ℚ × ℚ)) (er : MetaRec) (c : MetaRec)
    (hc : md key = some c) (h : cacheFresh (md key) stat = true) :
    scanMeta md key stat er = c := by
  unfold scanMeta
  rw [if_pos h, hc]
  rfl

/-- On a freshness miss the freshly extracted, stamped record is selected. -/
theorem scanMeta_of_stale (md : String → Option MetaRec) (key : String)
    (stat : Option (ℚ × ℚ)) (er : MetaRec)
    (h : cacheFresh (md key) stat = false) :
    scanMeta md key stat er = stampMeta er stat := by
  unfold scanMeta
  rw [if_neg (by rw [h]; exact Bool.false_ne_true)]

/-- With a known stat, the record the scan selects always carries the current
stamps (a fresh cache hit carries them by the freshness test; a miss is
stamped on extraction). -/
theorem scanMeta_stamps (md : String → Option MetaRec) (key : String)
    (mt sz : ℚ) (er : MetaRec) :
    (scanMeta md key (some (mt, sz)) er).mtime = some mt ∧
    (scanMeta md key (some (mt, sz)) er).size = some sz := by
  unfold scanMeta
  split
  · rename_i h
    cases hc : md key with
    | none => rw [hc] at h; simp [cacheFresh] at h
    | some c =>
      rw [hc] at h
      simp only [cacheFresh, decide_eq_true_eq] at h
      exact ⟨h.1, h.2⟩
  · simp [stampMeta]

/-- The emit decision restated through the report's own duration value. -/
theorem scanStep_emitted (minDur : ℚ) (md : String → Option MetaRec)
    (key : String) (stat : Option (ℚ × ℚ)) (er : MetaRec) (es : ℚ) :
    (scanStep minDur md key stat er es).emitted =
      !decide ((scanStep minDur md key stat er es).durVal ≠ 0 ∧
        (scanStep minDur md key stat er es).durVal < minDur) := rfl

/-- Extractor call count: zero on a freshness hit, one on a miss. -/
theorem scanStep_calls (minDur : ℚ) (md : String → Option MetaRec)
    (key : String) (stat : Option (ℚ × ℚ)) (er : MetaRec) (es : ℚ) :
    (scanStep minDur md key stat er es).extractorCalls =
      if cacheFresh (md key) stat then 0 else 1 := rfl

/-- An accepted discovery event merges its record into the metadata mirror
under the file's path. -/
theorem addDiscoveredFile_writes_back (minDur : ℚ) (q : String)
    (st : IndexState) (full ft : String) (meta : MetaRec) (ea : ℚ)
    (hne : meta.isNonempty = true) (hd : meta.duration.getD 0 ≠ 0)
    (hnl : ¬ meta.duration.getD 0 < minDur) :
    (addDiscoveredFile minDur q st full ft meta ea).metadata full =
      some (MetaRec.merge ((st.metadata full).getD {}) meta) := by
  unfold addDiscoveredFile
  by_cases hseen : full ∈ st.seen
  · simp [hseen, hne, updateMeta]
  · simp only [if_neg hseen, if_neg hd]
    rw [if_neg (fun hc => hnl hc.2)]
    simp only [hne, if_pos]
    split <;> simp [updateMeta]

/-- C7, counterexample: a candidate with no cached record (a stamp mismatch
by definition) is extracted, but because its duration (3) is below the
minimum (5) the stamped record is never written back to the metadata
mirror — the claimed unconditional write-back fails. -/
theorem scan_no_writeback_for_excluded :
    cacheFresh (emptyIndex.metadata "k") (some (1, 2)) = false ∧
    (scanCandidate 5 "" emptyIndex "k" "f" (some (1, 2))
      { duration := some 3 } 0 0).2.extractorCalls = 1 ∧
    (scanCandidate 5 "" emptyIndex "k" "f" (some (1, 2))
      { duration := some 3 } 0 0).2.emitted = false ∧
    (scanCandidate 5 "" emptyIndex "k" "f" (some (1, 2))
      { duration := some 3 } 0 0).1.metadata "k" = none := by
  refine ⟨rfl, rfl, ?_, ?_⟩
  · decide
  · rfl

/-- C7 (amended): with the file's stat known, (a) a cached record whose
stamps match is reused — the extractor is not called and the used record is
the cached one, at most with its duration backfilled; (b) on any stamp
mismatch the extractor is called once and the used record is the extraction
result stamped with the current modification time and size (duration
possibly backfilled); (c) the stamped record is written back to the
in-memory metadata cache when the candidate passes the duration filter and
is emitted — not unconditionally (see the counterexample). -/
theorem scan_cache_freshness (minDur : ℚ) (q key parentName : String)
    (st : IndexState) (mt sz : ℚ) (extractRes : MetaRec) (es ea : ℚ) :
    (∀ cRec, st.metadata key = some cRec → cRec.mtime = some mt →
      cRec.size = some sz →
      (scanCandidate minDur q st key parentName (some (mt, sz)) extractRes es
        ea).2.extractorCalls = 0 ∧
      ∃ o, (scanCandidate minDur q st key parentName (some (mt, sz)) extractRes
        es ea).2.metaUsed = { cRec with duration := o }) ∧
    (cacheFresh (st.metadata key) (some (mt, sz)) = false →
      (scanCandidate minDur q st key parentName (some (mt, sz)) extractRes es
        ea).2.extractorCalls = 1 ∧
      ∃ o, (scanCandidate minDur q st key parentName (some (mt, sz)) extractRes
        es ea).2.metaUsed =
        { extractRes with duration := o, mtime := some mt, size := some sz }) ∧
    ((scanCandidate minDur q st key parentName (some (mt, sz)) extractRes es
        ea).2.durVal ≠ 0 →
      (scanCandidate minDur q st key parentName (some (mt, sz)) extractRes es
        ea).2.emitted = true →
      ∃ m, (scanCandidate minDur q st key parentName (some (mt, sz)) extractRes
        es ea).1.metadata key = some m ∧ m.mtime = some mt ∧ m.size = some sz) := by
  rw [scanCandidate_report]
  refine ⟨?_, ?_, ?_⟩
  · intro cRec hc hm hs2
    have hfresh : cacheFresh (st.metadata key) (some (mt, sz)) = true := by
      rw [hc]
      simp [cacheFresh, hm, hs2]
    constructor
    · rw [scanStep_calls, hfresh]
      rfl
    · obtain ⟨o, ho⟩ := scanStep_metaUsed_shape minDur st.metadata key
        (some (mt, sz)) extractRes es
      rw [scanMeta_of_fresh st.metadata key (some (mt, sz)) extractRes cRec hc
        hfresh] at ho
      exact ⟨o, ho⟩
  · intro hstale
    constructor
    · rw [scanStep_calls, hstale]
      rfl
    · obtain ⟨o, ho⟩ := scanStep_metaUsed_shape minDur st.metadata key
        (some (mt, sz)) extractRes es
      rw [scanMeta_of_stale st.metadata key (some (mt, sz)) extractRes hstale]
        at ho
      exact ⟨o, ho⟩
  · intro hdv hem
    have hdur : ((scanStep minDur st.metadata key (some (mt, sz)) extractRes
        es).metaUsed).duration.getD 0 =
        (scanStep minDur st.metadata key (some (mt, sz)) extractRes
          es).durVal := by
      refine scanStep_metaUsed_dur minDur st.metadata key (some (mt, sz))
        extractRes es _ ?_ ?_
      · exact (scanStep_durVal minDur st.metadata key (some (mt, sz))
          extractRes es).symm
      · exact hdv
    have hnl' : ¬ (scanStep minDur st.metadata key (some (mt, sz)) extractRes
        es).durVal < minDur := by
      intro hlt
      have h1 := scanStep_emitted minDur st.metadata key (some (mt, sz))
        extractRes es
      rw [hem, decide_eq_true (And.intro hdv hlt)] at h1
      simp at h1
    have hnl : ¬ ((scanStep minDur st.metadata key (some (mt, sz)) extractRes
        es).metaUsed).duration.getD 0 < minDur := by
      rw [hdur]
      exact hnl'
    obtain ⟨o, ho⟩ := scanStep_metaUsed_shape minDur st.metadata key
      (some (mt, sz)) extractRes es
    obtain ⟨hsm1, hsm2⟩ := scanMeta_stamps st.metadata key mt sz extractRes
    have hmt : ((scanStep minDur st.metadata key (some (mt, sz)) extractRes
        es).metaUsed).mtime = some mt := by
      rw [ho]
      exact hsm1
    have hsz : ((scanStep minDur st.metadata key (some (mt, sz)) extractRes
        es).metaUsed).size = some sz := by
      rw [ho]
      exact hsm2
    have hne : ((scanStep minDur st.metadata key (some (mt, sz)) extractRes
        es).metaUsed).isNonempty = true := by
      unfold MetaRec.isNonempty
      rw [hmt]
      simp
    unfold scanCandidate
    dsimp only
    rw [if_pos hem]
    rw [addDiscoveredFile_writes_back _ _ _ _ _ _ _ hne
      (by rw [hdur]; exact hdv) hnl]
    refine ⟨_, rfl, ?_, ?_⟩
    · simp [MetaRec.merge, hmt]
    · simp [MetaRec.merge, hsz]

/-- Witness for `scan_cache_freshness`: a fresh cached record (matching
stamps, known duration) is reused with zero extractor calls. -/
theorem scan_cache_freshness_witness :
    ((fun k => if k = "k" then
        some ({ duration := some 30, mtime := some 1, size := some 2 } : MetaRec)
      else none) "k" =
      some ({ duration := some 30, mtime := some 1, size := some 2 } : MetaRec)) ∧
    (scanCandidate 5 ""
      { all := [], mp3 := [], seen := [],
        metadata := fun k => if k = "k" then
          some { duration := some 30, mtime := some 1, size := some 2 }
        else none,
        excluded := 0 }
      "k" "f" (some (1, 2)) {} 0 0).2.extractorCalls = 0 := by
  constructor
  · rfl
  · exact (((scan_cache_freshness 5 "" "k" "f"
      { all := [], mp3 := [], seen := [],
        metadata := fun k => if k = "k" then
          some { duration := some 30, mtime := some 1, size := some 2 }
        else none,
        excluded := 0 }
      1 2 {} 0 0).1
      { duration := some 30, mtime := some 1, size := some 2 }
      rfl rfl rfl).1)

end OsuBrowser

namespace OsuBrowser

/-- Any state whose full index is extended by one fresh path, whose seen set
gains that path, and whose filtered view gains at most that entry satisfies
the index invariant. -/
theorem IndexInv_accept (st : IndexState) (full ft : String)
    (md : String → Option MetaRec) (mp : List (String × String)) (exc : Nat)
    (h1 : (st.all.map Prod.fst).Nodup)
    (h2 : ∀ p, p ∈ st.mp3.map Prod.fst → p ∈ st.all.map Prod.fst)
    (h3 : ∀ p, p ∈ st.all.map Prod.fst → p ∈ st.seen)
    (hseen : full ∉ st.seen)
    (hmp : mp = st.mp3 ∨ mp = st.mp3 ++ [(full, ft)]) :
    IndexInv { all := st.all ++ [(full, ft)], mp3 := mp,
               seen := full :: st.seen, metadata := md, excluded := exc } := by
  have hfull : full ∉ st.all.map Prod.fst := fun hx => hseen (h3 full hx)
  refine ⟨?_, ?_, ?_⟩
  · rw [List.map_append]
    simp only [List.map_cons, List.map_nil]
    rw [List.nodup_append]
    exact ⟨h1, List.nodup_singleton full, by simpa using fun hf => hfull hf⟩
  · intro p hp
    rw [List.map_append]
    rcases hmp with rfl | rfl
    · exact List.mem_append.mpr (Or.inl (h2 p hp))
    · rw [List.map_append] at hp
      rcases List.mem_append.mp hp with hq | hq
      · exact List.mem_append.mpr (Or.inl (h2 p hq))
      · exact List.mem_append.mpr (Or.inr hq)
  · intro p hp
    rw [List.map_append] at hp
    rcases List.mem_append.mp hp with hq | hq
    · exact List.mem_cons_of_mem _ (h3 p hq)
    · simp only [List.map_cons, List.map_nil, List.mem_singleton] at hq
      rw [hq]
      exact List.mem_cons_self _ _

/-- `_add_discovered_file` preserves the index invariant. -/
theorem IndexInv_addDiscoveredFile (minDur : ℚ) (q : String) (st : IndexState)
    (full ft : String) (meta : MetaRec) (ea : ℚ) (h : IndexInv st) :
    IndexInv (addDiscoveredFile minDur q st full ft meta ea) := by
  obtain ⟨h1, h2, h3⟩ := h
  unfold addDiscoveredFile
  by_cases hseen : full ∈ st.seen
  · rw [if_pos hseen]
    split
    · exact ⟨h1, h2, h3⟩
    · exact ⟨h1, h2, h3⟩
  · rw [if_neg hseen]
    dsimp only
    split
    · -- duration unknown at event time: `ensure_duration` side effect
      dsimp only
      split
      · exact ⟨h1, h2, h3⟩
      · split
        · split
          · exact IndexInv_accept st full ft _ _ _ h1 h2 h3 hseen (by simp)
          · exact IndexInv_accept st full ft _ _ _ h1 h2 h3 hseen (by simp)
        · split
          · exact IndexInv_accept st full ft _ _ _ h1 h2 h3 hseen (by simp)
          · exact IndexInv_accept st full ft _ _ _ h1 h2 h3 hseen (by simp)
    · dsimp only
      split
      · exact ⟨h1, h2, h3⟩
      · split
        · split
          · exact IndexInv_accept st full ft _ _ _ h1 h2 h3 hseen (by simp)
          · exact IndexInv_accept st full ft _ _ _ h1 h2 h3 hseen (by simp)
        · split
          · exact IndexInv_accept st full ft _ _ _ h1 h2 h3 hseen (by simp)
          · exact IndexInv_accept st full ft _ _ _ h1 h2 h3 hseen (by simp)

/-- `refresh_list` preserves the index invariant. -/
theorem IndexInv_refreshList (q : String) (st : IndexState) (h : IndexInv st) :
    IndexInv (refreshList q st) := by
  obtain ⟨h1, h2, h3⟩ := h
  refine ⟨h1, ?_, h3⟩
  intro p hp
  rw [List.mem_map] at hp ⊢
  obtain ⟨pt, hpt, rfl⟩ := hp
  exact ⟨pt, (List.mem_filter.mp hpt).1, rfl⟩

/-- `_apply_cache_to_ui` establishes the index invariant whenever the full
index has no duplicate paths. -/
theorem IndexInv_applyCacheToUi (q : String) (st : IndexState)
    (h1 : (st.all.map Prod.fst).Nodup) : IndexInv (applyCacheToUi q st) := by
  refine ⟨h1, ?_, ?_⟩
  · intro p hp
    rw [List.mem_map] at hp ⊢
    obtain ⟨pt, hpt, rfl⟩ := hp
    exact ⟨pt, (List.mem_filter.mp hpt).1, rfl⟩
  · intro p hp
    exact List.mem_append.mpr (Or.inl hp)

/-- The paths `_load_cache` installs are the still-existing cached paths. -/
theorem loadCache_all_paths (existsP : String → Bool) (items : List CacheItem)
    (st : IndexState) :
    (loadCache existsP items st).all.map Prod.fst =
      (items.filter (fun it => existsP it.path)).map CacheItem.path := by
  unfold loadCache
  dsimp only
  rw [List.map_map]
  rfl

/-- C8, counterexample: `_load_cache` does not deduplicate — loading a cache
file that lists the same path twice puts the path twice into the full index,
so the cache-load operation does not maintain the no-duplicate-path
invariant. -/
theorem loadCache_dup_breaks_invariant :
    IndexInv emptyIndex ∧
    ¬ ((loadCache (fun _ => true)
        [⟨"A", "f", some "t", none⟩, ⟨"A", "f", some "t", none⟩]
        emptyIndex).all.map Prod.fst).Nodup := by
  constructor
  · refine ⟨List.nodup_nil, ?_, ?_⟩ <;> simp [emptyIndex]
  · rw [loadCache_all_paths]
    decide

/-- C8 (amended): incremental discovery and list refresh unconditionally
preserve the library-index invariant (no duplicate path; filtered view ⊆
full index); the startup cache load followed by the apply-cache step (as the
program always runs them) establishes it provided the cache file's items
contain pairwise-distinct paths — a duplicated cache file, however, yields a
duplicated full index (see the counterexample). -/
theorem library_index_invariant (minDur ea : ℚ) (q q2 q3 : String)
    (st : IndexState) (full ft : String) (meta : MetaRec)
    (existsP : String → Bool) (items : List CacheItem)
    (h : IndexInv st) (hitems : (items.map CacheItem.path).Nodup) :
    IndexInv (addDiscoveredFile minDur q st full ft meta ea) ∧
    IndexInv (refreshList q2 st) ∧
    IndexInv (applyCacheToUi q3 (loadCache existsP items st)) := by
  refine ⟨IndexInv_addDiscoveredFile minDur q st full ft meta ea h,
    IndexInv_refreshList q2 st h, ?_⟩
  apply IndexInv_applyCacheToUi
  rw [loadCache_all_paths]
  exact hitems.sublist (List.Sublist.map _ (List.filter_sublist _))

/-- Witness for `library_index_invariant` at a concrete populated state. -/
theorem library_index_invariant_witness :
    IndexInv emptyIndex ∧
    IndexInv (addDiscoveredFile 5 "" emptyIndex "A" "t" {} 0) ∧
    IndexInv (refreshList "" emptyIndex) ∧
    IndexInv (applyCacheToUi ""
      (loadCache (fun _ => true) [⟨"A", "f", some "t", none⟩] emptyIndex)) := by
  have h0 : IndexInv emptyIndex := by
    refine ⟨List.nodup_nil, ?_, ?_⟩ <;> simp [emptyIndex]
  refine ⟨h0, ?_⟩
  exact library_index_invariant 5 0 "" "" "" emptyIndex "A" "t" {}
    (fun _ => true) [⟨"A", "f", some "t", none⟩] h0 (by simp)

end OsuBrowser
